import Mathlib

/-!
# Verification of `tools.py` (everest-workshop)

A shallow embedding of the transit-search tool `tools.py` over exact rational
arithmetic, with theorems settling the specification claims about it.

Conventions used throughout:
* `ℚ` stands in for IEEE floats; the formulas of the source are embedded
  exactly.  Division of a nonzero float by zero produces `inf` (a non-finite
  value) in the source; wherever the source tests `np.isfinite` on such a
  quotient, the embedding tests the divisor against zero.
* NumPy's NaN "undefined" marker is modelled as `none : Option ℚ`.
* External collaborators (`GetCovariance`, `cho_factor`/`cho_solve`,
  `TransitShape`, `SavGol`) are abstract function parameters, as §6 of the
  spec treats them as opaque interfaces.
-/

namespace Everest

/-! ## NumPy primitives used by the source -/

/-- Embeds `np.diff`: successive differences, `diff[i] = xs[i+1] - xs[i]`. -/
def npDiff (xs : List ℚ) : List ℚ :=
  List.zipWith (fun a b => a - b) xs.tail xs

/-- Insert into a sorted list (helper for the median's sort). -/
def insertRat (x : ℚ) : List ℚ → List ℚ
  | [] => [x]
  | y :: ys => if x ≤ y then x :: y :: ys else y :: insertRat x ys

/-- Insertion sort (ascending), the order used by `np.median`. -/
def sortRat (xs : List ℚ) : List ℚ := xs.foldr insertRat []

/-- Embeds `np.median` / `np.nanmedian` on NaN-free data: sort ascending, take the
middle element for odd length, the mean of the two middle elements for even
length.  (The value on an empty list is junk; the source would produce NaN.) -/
def npMedian (xs : List ℚ) : ℚ :=
  let s := sortRat xs
  let n := s.length
  if n % 2 = 1 then s.getD (n / 2) 0
  else (s.getD (n / 2 - 1) 0 + s.getD (n / 2) 0) / 2

/-- Embeds `np.dot` on two equal-length 1-D arrays. -/
def dot (xs ys : List ℚ) : ℚ := (List.zipWith (fun a b => a * b) xs ys).sum

/-- Helper for `np.delete`: walk the list with a position counter, dropping
positions that occur in `gaps`. -/
def npDeleteAux (gaps : List ℕ) : List ℚ → ℕ → List ℚ
  | [], _ => []
  | x :: xs, k =>
    if k ∈ gaps then npDeleteAux gaps xs (k + 1)
    else x :: npDeleteAux gaps xs (k + 1)

/-- Embeds `np.delete(xs, gaps)`: remove the entries of `xs` at the positions listed
in `gaps`. -/
def npDelete (xs : List ℚ) (gaps : List ℕ) : List ℚ := npDeleteAux gaps xs 0

/-- Helper for `np.arange`: `n` values starting at `start`, stepping by
`step`. -/
def arangeAux (start step : ℚ) : ℕ → List ℚ
  | 0 => []
  | n + 1 => start :: arangeAux (start + step) step n

/-- Embeds `np.arange(start, stop, step)` for a positive step: the
`⌈(stop - start)/step⌉` values `start, start+step, …`, all `< stop`.
(The source never calls it with a non-positive step.) -/
def npArange (start stop step : ℚ) : List ℚ :=
  if 0 < step then arangeAux start step (⌈(stop - start) / step⌉.toNat) else []

/-- Python `int()` on a float: truncation toward zero. -/
def pyInt (q : ℚ) : ℤ := if 0 ≤ q then ⌊q⌋ else ⌈q⌉

/-- Python 3 `round()` on a float (also `np.float64.__round__`):
round half to even. -/
def npRound (q : ℚ) : ℤ :=
  if q - ⌊q⌋ < 1/2 then ⌊q⌋
  else if 1/2 < q - ⌊q⌋ then ⌊q⌋ + 1
  else if ⌊q⌋ % 2 = 0 then ⌊q⌋ else ⌊q⌋ + 1

/-- NumPy 1-D integer indexing: a negative index wraps once from the end;
any other out-of-range index raises `IndexError`, modelled as `none`. -/
def npIndex (xs : List ℚ) (i : ℤ) : Option ℚ :=
  if 0 ≤ i ∧ i < (xs.length : ℤ) then xs.get? i.toNat
  else if -(xs.length : ℤ) ≤ i ∧ i < 0 then xs.get? (xs.length - (-i).toNat)
  else none

/-! ## Matched-Filter Scanner (`Search`, lines 145–187)

The per-chunk scan.  `solve` is the abstract `cho_solve(C, ·)` against the
chunk's Cholesky factorization, `shape` the abstract `TransitShape` evaluator
(`shape τ c` = value of the unit-baseline transit curve at time `τ` for a
transit centered at `c`). -/

/-- The transit shape vector used at candidate slot `i` (`Search`,
lines 163–165): the shape provider evaluated over the full uniform grid
centered at `t[i]`, the entries at gap slots removed, scaled by the chunk's
median flux. -/
def shapeVec (shape : ℚ → ℚ → ℚ) (t : List ℚ) (gaps : List ℕ)
    (flux : List ℚ) (i : ℕ) : List ℚ :=
  (npDelete (t.map (fun τ => shape τ (t.getD i 0))) gaps).map
    (fun x => x * npMedian flux)

/-- One iteration of the candidate loop (`Search`, lines 160–187), producing
the `(depth, variance, Δχ²)` triple for candidate slot `i`.  The source
computes `var = 1/denom` and tests `np.isfinite(var)`; with real (NaN-free)
data that test fails exactly when `denom = 0` (float division of a nonzero
value by zero gives `inf`), in which case all three outputs are set to the
NaN marker and the loop continues. -/
def scanStep (shape : ℚ → ℚ → ℚ) (solve : List ℚ → List ℚ)
    (t : List ℚ) (gaps : List ℕ) (flux : List ℚ) (lnL0 : ℚ) (i : ℕ) :
    Option ℚ × Option ℚ × Option ℚ :=
  let trn := shapeVec shape t gaps flux i
  let denom := dot trn (solve trn)
  if denom = 0 then (none, none, none)
  else
    let v := 1 / denom
    let d := v * dot trn (solve flux)
    let r := List.zipWith (fun fk sk => fk - sk * d) flux trn
    let lnL := -(1/2 : ℚ) * dot r (solve r)
    (some d, some v, some (-2 * (lnL0 - lnL)))

/-- The whole chunk scan (`Search`, lines 145–187): precompute the
no-transit log-likelihood once, then roll the transit model across every
grid slot.  One output triple per uniform-grid slot. -/
def scanChunk (shape : ℚ → ℚ → ℚ) (solve : List ℚ → List ℚ)
    (t : List ℚ) (gaps : List ℕ) (flux : List ℚ) :
    List (Option ℚ × Option ℚ × Option ℚ) :=
  let lnL0 := -(1/2 : ℚ) * dot flux (solve flux)
  (List.range t.length).map (scanStep shape solve t gaps flux lnL0)

theorem scanChunk_get (shape : ℚ → ℚ → ℚ) (solve : List ℚ → List ℚ)
    (t : List ℚ) (gaps : List ℕ) (flux : List ℚ) (i : ℕ) (hi : i < t.length) :
    (scanChunk shape solve t gaps flux).get? i =
      some (scanStep shape solve t gaps flux
        (-(1/2 : ℚ) * dot flux (solve flux)) i) := by
  simp [scanChunk, List.get?_eq_getElem?, List.getElem?_map, List.getElem?_range, hi]

theorem scanChunk_length (shape : ℚ → ℚ → ℚ) (solve : List ℚ → List ℚ)
    (t : List ℚ) (gaps : List ℕ) (flux : List ℚ) :
    (scanChunk shape solve t gaps flux).length = t.length := by
  simp [scanChunk]

/-- C1: for every chunk input and every candidate grid slot `i` whose depth
variance is finite (nonzero inner product), the scanner's outputs satisfy the
matched-filter equations: `variance = 1/(shape·solve(shape))`,
`depth = variance * (shape·solve(flux))`, and `Δχ² = -2*(lnL0 - lnL)` with
`lnL0 = -0.5 * flux·solve(flux)` (computed once per chunk),
`r = flux - shape*depth`, `lnL = -0.5 * r·solve(r)`, where the shape vector
is the transit-shape provider evaluated on the full grid centered at `t[i]`,
gap slots removed, scaled by the chunk's median flux. -/
theorem scan_matched_filter_eqs (shape : ℚ → ℚ → ℚ) (solve : List ℚ → List ℚ)
    (t : List ℚ) (gaps : List ℕ) (flux : List ℚ) (i : ℕ)
    (hi : i < t.length)
    (hfin : dot (shapeVec shape t gaps flux i)
      (solve (shapeVec shape t gaps flux i)) ≠ 0) :
    let trn := shapeVec shape t gaps flux i
    let variance := 1 / dot trn (solve trn)
    let depth := variance * dot trn (solve flux)
    let lnL0 := -(1/2 : ℚ) * dot flux (solve flux)
    let r := List.zipWith (fun fk sk => fk - sk * depth) flux trn
    let lnL := -(1/2 : ℚ) * dot r (solve r)
    (scanChunk shape solve t gaps flux).get? i =
      some (some depth, some variance, some (-2 * (lnL0 - lnL))) := by
  rw [scanChunk_get shape solve t gaps flux i hi]
  simp only [scanStep, if_neg hfin]

/-- Witness for C1 at a concrete input: grid `[0,1]`, no gaps, flux `[1,2]`,
identity solver, constant unit shape. -/
theorem scan_matched_filter_eqs_witness :
    let trn := shapeVec (fun _ _ => 1) [0, 1] [] [1, 2] 0
    let variance := 1 / dot trn (id trn)
    let depth := variance * dot trn (id [1, 2])
    let lnL0 := -(1/2 : ℚ) * dot [1, 2] (id [1, 2])
    let r := List.zipWith (fun fk sk => fk - sk * depth) [1, 2] trn
    let lnL := -(1/2 : ℚ) * dot r (id r)
    (scanChunk (fun _ _ => 1) id [0, 1] [] [1, 2]).get? 0 =
      some (some depth, some variance, some (-2 * (lnL0 - lnL))) :=
  scan_matched_filter_eqs (fun _ _ => 1) id [0, 1] [] [1, 2] 0
    (by decide)
    (by norm_num [shapeVec, npDelete, npDeleteAux, npMedian, sortRat,
          insertRat, dot])

/-- C5: a candidate whose depth-variance denominator is zero (non-finite
variance in the source) gets the undefined marker in all three outputs at
that single slot, and the scan continues: every one of the `t.length`
candidates still produces an output triple. -/
theorem scan_degenerate_marker (shape : ℚ → ℚ → ℚ) (solve : List ℚ → List ℚ)
    (t : List ℚ) (gaps : List ℕ) (flux : List ℚ) (i : ℕ)
    (hi : i < t.length)
    (hdeg : dot (shapeVec shape t gaps flux i)
      (solve (shapeVec shape t gaps flux i)) = 0) :
    (scanChunk shape solve t gaps flux).get? i = some (none, none, none) ∧
    (scanChunk shape solve t gaps flux).length = t.length := by
  refine ⟨?_, scanChunk_length shape solve t gaps flux⟩
  rw [scanChunk_get shape solve t gaps flux i hi]
  simp only [scanStep, if_pos hdeg]

/-- Witness for C5 at a concrete input: an identically-zero shape makes the
inner product vanish at slot 0 while the scan still emits both slots. -/
theorem scan_degenerate_marker_witness :
    (scanChunk (fun _ _ => 0) id [0, 1] [] [1, 2]).get? 0 =
      some (none, none, none) ∧
    (scanChunk (fun _ _ => 0) id [0, 1] [] [1, 2]).length = 2 :=
  scan_degenerate_marker (fun _ _ => 0) id [0, 1] [] [1, 2] 0
    (by decide)
    (by norm_num [shapeVec, npDelete, npDeleteAux, npMedian, sortRat,
          insertRat, dot])

/-! ## Chunk Preparer: uniform grid construction (`GetChunkData`, lines 100–115)

The source builds `tunif = np.arange(tm[0], tm[-1] + tol, dt)` with
`dt = median(diff(tm))`, `tol = dt/5`, copies it into `time`, and walks a
cursor `j` over the observed times `tm`: a slot within `tol` of `tm[j]` is
overwritten with `tm[j]` and the cursor advances (with `break` once all
observed times are consumed); otherwise the slot index is recorded as a gap.
`gridSlots` returns one `(value, isGap)` pair per slot plus the final cursor;
slots reached after the `break` keep their `arange` value and are not gaps
(exactly as in the source, where the loop exits before touching them). -/

/-- The slot loop of the grid construction.  Per slot: `(written value,
recorded as gap?)`; also returns the final observed-time cursor. -/
def gridSlots (tm : List ℚ) (tol : ℚ) : List ℚ → ℕ → List (ℚ × Bool) × ℕ
  | [], j => ([], j)
  | t :: rest, j =>
    if hj : j < tm.length then
      if |tm[j] - t| < tol then
        ((tm[j], false) :: (gridSlots tm tol rest (j + 1)).1,
          (gridSlots tm tol rest (j + 1)).2)
      else
        ((t, true) :: (gridSlots tm tol rest j).1, (gridSlots tm tol rest j).2)
    else ((t, false) :: rest.map (fun x => (x, false)), j)

/-- The gap index list accumulated by the loop: the positions whose slot was
recorded as a gap, in increasing order (`gaps.append(i)` in the source). -/
def gapIndicesAux : List (ℚ × Bool) → ℕ → List ℕ
  | [], _ => []
  | s :: ss, k =>
    if s.2 then k :: gapIndicesAux ss (k + 1) else gapIndicesAux ss (k + 1)

/-- The uniform-grid section of `GetChunkData` (lines 100–115): returns the
grid time array, the gap index array, and the final observed-time cursor
(the source's `j`; the source keeps no error path for `j` short of
`len(tm)` — the loop just ends). -/
def buildGrid (tm : List ℚ) : List ℚ × List ℕ × ℕ :=
  let dt := npMedian (npDiff tm)
  let tol := dt / 5
  let tunif := npArange (tm.headD 0) (tm.getLastD 0 + tol) dt
  let out := gridSlots tm tol tunif 0
  (out.1.map Prod.fst, gapIndicesAux out.1 0, out.2)

/-! Lemmas relating the data structures. -/

theorem gapIndicesAux_ge (ss : List (ℚ × Bool)) :
    ∀ k m, m ∈ gapIndicesAux ss k → k ≤ m := by
  induction ss with
  | nil => intro k m h; simp [gapIndicesAux] at h
  | cons s ss ih =>
    intro k m h
    simp only [gapIndicesAux] at h
    by_cases hs : s.2
    · rw [if_pos hs] at h
      rcases List.mem_cons.mp h with h1 | h2
      · omega
      · have := ih (k + 1) m h2; omega
    · rw [if_neg hs] at h
      have := ih (k + 1) m h; omega

theorem npDeleteAux_congr (xs : List ℚ) :
    ∀ (g1 g2 : List ℕ) k, (∀ m, k ≤ m → (m ∈ g1 ↔ m ∈ g2)) →
      npDeleteAux g1 xs k = npDeleteAux g2 xs k := by
  induction xs with
  | nil => intro g1 g2 k _; rfl
  | cons x xs ih =>
    intro g1 g2 k h
    simp only [npDeleteAux]
    rw [ih g1 g2 (k + 1) (fun m hm => h m (by omega))]
    by_cases hk : k ∈ g1
    · rw [if_pos hk, if_pos ((h k le_rfl).mp hk)]
    · rw [if_neg hk, if_neg (fun hc => hk ((h k le_rfl).mpr hc))]

/-- Applying `np.delete` to the slot values at the recorded gap positions is the list
of non-gap slot values. -/
theorem npDeleteAux_gapIndices (slots : List (ℚ × Bool)) :
    ∀ k, npDeleteAux (gapIndicesAux slots k) (slots.map Prod.fst) k =
      (slots.filter (fun s => !s.2)).map Prod.fst := by
  induction slots with
  | nil => intro k; rfl
  | cons s ss ih =>
    intro k
    by_cases hs : s.2
    · rw [gapIndicesAux, if_pos hs, List.map_cons, npDeleteAux,
        if_pos (List.mem_cons_self k _)]
      rw [npDeleteAux_congr (ss.map Prod.fst) (k :: gapIndicesAux ss (k + 1))
        (gapIndicesAux ss (k + 1)) (k + 1) ?_]
      · rw [ih (k + 1), List.filter_cons]
        simp [hs]
      · intro m hm
        simp only [List.mem_cons]
        constructor
        · rintro (rfl | h)
          · exact absurd hm (by omega)
          · exact h
        · intro h; right; exact h
    · have hs2 : s.2 = false := by simpa using hs
      rw [gapIndicesAux, if_neg hs, List.map_cons, npDeleteAux]
      have hk : k ∉ gapIndicesAux ss (k + 1) := fun hc => by
        have := gapIndicesAux_ge ss (k + 1) k hc; omega
      rw [if_neg hk, ih (k + 1), List.filter_cons]
      simp [hs2]

theorem gridSlots_of_ge (tm : List ℚ) (tol : ℚ) (L : List ℚ) (j : ℕ)
    (hj : tm.length ≤ j) :
    gridSlots tm tol L j = (L.map (fun x => (x, false)), j) := by
  cases L with
  | nil => rfl
  | cons t rest =>
    simp only [gridSlots, dif_neg (by omega : ¬ j < tm.length), List.map_cons]

theorem gridSlots_length (tm : List ℚ) (tol : ℚ) :
    ∀ L j, (gridSlots tm tol L j).1.length = L.length := by
  intro L
  induction L with
  | nil => intro j; rfl
  | cons t rest ih =>
    intro j
    by_cases hj : j < tm.length
    · simp only [gridSlots, dif_pos hj]
      by_cases hm : |tm[j] - t| < tol
      · rw [if_pos hm]; simp [ih]
      · rw [if_neg hm]; simp [ih]
    · rw [gridSlots_of_ge tm tol _ j (by omega)]
      simp

theorem arangeAux_length (step : ℚ) : ∀ n start, (arangeAux start step n).length = n := by
  intro n
  induction n with
  | zero => intro start; rfl
  | succ m ih => intro start; simp [arangeAux, ih]

/-- The values of `arangeAux`. -/
theorem arangeAux_mem (step : ℚ) :
    ∀ n start x, x ∈ arangeAux start step n → ∃ k, k < n ∧ x = start + k * step := by
  intro n
  induction n with
  | zero => intro start x h; simp [arangeAux] at h
  | succ m ih =>
    intro start x h
    simp only [arangeAux, List.mem_cons] at h
    rcases h with rfl | h
    · exact ⟨0, by omega, by ring⟩
    · rcases ih (start + step) x h with ⟨k, hk, rfl⟩
      exact ⟨k + 1, by omega, by push_cast; ring⟩

theorem arangeAux_chain (step : ℚ) :
    ∀ n start, List.Chain' (fun a b => b = a + step) (arangeAux start step n) := by
  intro n
  induction n with
  | zero => intro start; simp [arangeAux]
  | succ m ih =>
    intro start
    cases m with
    | zero => simp [arangeAux]
    | succ p =>
      rw [arangeAux, arangeAux, List.chain'_cons]
      refine ⟨rfl, ?_⟩
      rw [← arangeAux]
      exact ih (start + step)

/-- Every element of `np.arange(start, stop, step)` is `< stop` (positive
step). -/
theorem npArange_lt_stop (start stop step : ℚ) (hstep : 0 < step) :
    ∀ x ∈ npArange start stop step, x < stop := by
  intro x hx
  rw [npArange, if_pos hstep] at hx
  rcases arangeAux_mem step _ start x hx with ⟨k, hk, rfl⟩
  have hk2 : (k : ℤ) < ⌈(stop - start) / step⌉ := by omega
  have hk3 : (k : ℚ) < (stop - start) / step := by exact_mod_cast Int.lt_ceil.mp hk2
  have hk4 : (k : ℚ) * step < stop - start := (lt_div_iff₀ hstep).mp hk3
  linarith

/-- Every written slot value is within `tol` of its `arange` value (matched
slots by the tolerance test, all others are the `arange` value itself). -/
theorem gridSlots_close (tm : List ℚ) (tol : ℚ) (htol : 0 < tol) :
    ∀ L j, List.Forall₂ (fun v x => |v - x| < tol)
      ((gridSlots tm tol L j).1.map Prod.fst) L := by
  intro L
  induction L with
  | nil => intro j; exact List.Forall₂.nil
  | cons t rest ih =>
    intro j
    by_cases hj : j < tm.length
    · simp only [gridSlots, dif_pos hj]
      by_cases hm : |tm[j] - t| < tol
      · rw [if_pos hm]
        simp only [List.map_cons]
        exact List.Forall₂.cons hm (ih (j + 1))
      · rw [if_neg hm]
        simp only [List.map_cons]
        refine List.Forall₂.cons (by simpa using htol) (ih j)
    · rw [gridSlots_of_ge tm tol _ j (by omega)]
      simp only [List.map_cons, List.map_map]
      refine List.Forall₂.cons (by simpa using htol) ?_
      have : (Prod.fst ∘ fun x => (x, false)) = (id : ℚ → ℚ) := rfl
      rw [this, List.map_id]
      exact (List.forall₂_same).mpr (fun x _ => by simpa using htol)

/-- Values within `dt/5` of a `dt`-spaced increasing progression are strictly
increasing. -/
theorem chain_lt_of_close (dt : ℚ) (hdt : 0 < dt) :
    ∀ (vals L : List ℚ), List.Forall₂ (fun v x => |v - x| < dt / 5) vals L →
      List.Chain' (fun a b => b = a + dt) L → List.Chain' (fun a b => a < b) vals := by
  intro vals
  induction vals with
  | nil => intro L _ _; exact List.chain'_nil
  | cons v1 vs ih =>
    intro L h hc
    cases h with
    | cons h1 h2 =>
      cases h2 with
      | nil => exact List.chain'_singleton v1
      | cons h3 h4 =>
        rw [List.chain'_cons] at hc ⊢
        have h1a := abs_sub_lt_iff.mp h1
        have h3a := abs_sub_lt_iff.mp h3
        refine ⟨?_, ih _ (List.Forall₂.cons h3 h4) hc.2⟩
        have := hc.1
        linarith [h1a.1, h1a.2, h3a.1, h3a.2]

theorem getLastD_eq_getElem (l : List ℚ) (j : ℕ) (hj : j < l.length)
    (h : j + 1 = l.length) : l.getLastD 0 = l[j] := by
  rw [List.getLastD_eq_getLast?, List.getLast?_eq_getElem?]
  have h2 : l.length - 1 = j := by omega
  rw [h2, List.getElem?_eq_getElem hj]
  rfl

/-- If the cursor has consumed all observed times by the end of the loop and
the slot values form a `dt`-spaced progression bounded by `lastTime + dt/5`
(as `np.arange` guarantees), the non-gap slot values are exactly the
remaining observed times: the final match happens at the last slot, so no
post-`break` slots exist. -/
theorem gridSlots_consume (tm : List ℚ) (dt : ℚ) (hdt : 0 < dt) :
    ∀ L j, List.Chain' (fun a b => b = a + dt) L →
      (∀ x ∈ L, x < tm.getLastD 0 + dt / 5) →
      j < tm.length →
      (gridSlots tm (dt / 5) L j).2 = tm.length →
      ((gridSlots tm (dt / 5) L j).1.filter (fun s => !s.2)).map Prod.fst
        = tm.drop j := by
  intro L
  induction L with
  | nil =>
    intro j _ _ hj hdone
    simp only [gridSlots] at hdone
    omega
  | cons t rest ih =>
    intro j hchain hbound hj hdone
    simp only [gridSlots, dif_pos hj] at hdone ⊢
    by_cases hm : |tm[j] - t| < dt / 5
    · rw [if_pos hm] at hdone ⊢
      dsimp only at hdone ⊢
      by_cases hj2 : j + 1 < tm.length
      · have hrec := ih (j + 1) hchain.tail
          (fun x hx => hbound x (List.mem_cons_of_mem t hx)) hj2 hdone
        rw [List.filter_cons]
        simp only [Bool.not_false, if_true]
        rw [List.map_cons, hrec, List.drop_eq_getElem_cons hj]
      · have hj1 : j + 1 = tm.length := by omega
        rw [gridSlots_of_ge tm (dt / 5) rest (j + 1) (by omega)]
        cases rest with
        | nil =>
          rw [List.filter_cons]
          simp only [List.map_nil, Bool.not_false, if_true]
          rw [List.drop_eq_getElem_cons hj, hj1, List.drop_length]
          rfl
        | cons r rest2 =>
          exfalso
          have hr : r = t + dt := (List.chain'_cons.mp hchain).1
          have hrb : r < tm.getLastD 0 + dt / 5 :=
            hbound r (List.mem_cons_of_mem t (List.mem_cons_self r rest2))
          have hlast : tm.getLastD 0 = tm[j] := getLastD_eq_getElem tm j hj hj1
          rw [abs_sub_lt_iff] at hm
          rw [hlast] at hrb
          linarith [hm.1, hm.2]
    · rw [if_neg hm] at hdone ⊢
      dsimp only at hdone ⊢
      have hrec := ih j hchain.tail
        (fun x hx => hbound x (List.mem_cons_of_mem t hx)) hj hdone
      rw [List.filter_cons]
      simp only [Bool.not_true, if_neg (by simp : ¬ (false = true))]
      exact hrec

/-- If the loop ends with the cursor short of the observed-time count (no
`break` happened), the non-gap slot values are exactly the observed times
consumed so far — the remaining observed times were silently dropped. -/
theorem gridSlots_truncated (tm : List ℚ) (tol : ℚ) :
    ∀ L j, (gridSlots tm tol L j).2 < tm.length →
      j ≤ (gridSlots tm tol L j).2 ∧
      ((gridSlots tm tol L j).1.filter (fun s => !s.2)).map Prod.fst
        = (tm.drop j).take ((gridSlots tm tol L j).2 - j) := by
  intro L
  induction L with
  | nil =>
    intro j _
    exact ⟨le_rfl, by simp [gridSlots]⟩
  | cons t rest ih =>
    intro j h
    by_cases hj : j < tm.length
    · simp only [gridSlots, dif_pos hj] at h ⊢
      by_cases hm : |tm[j] - t| < tol
      · rw [if_pos hm] at h ⊢
        dsimp only at h ⊢
        obtain ⟨hle, heq⟩ := ih (j + 1) h
        refine ⟨by omega, ?_⟩
        rw [List.filter_cons]
        simp only [Bool.not_false, if_true]
        rw [List.map_cons, heq, List.drop_eq_getElem_cons hj]
        have hsub : (gridSlots tm tol rest (j + 1)).2 - j =
            ((gridSlots tm tol rest (j + 1)).2 - (j + 1)) + 1 := by omega
        rw [hsub, List.take_succ_cons]
      · rw [if_neg hm] at h ⊢
        dsimp only at h ⊢
        obtain ⟨hle, heq⟩ := ih j h
        refine ⟨hle, ?_⟩
        rw [List.filter_cons]
        simp only [Bool.not_true, if_neg (by simp : ¬ (false = true))]
        exact heq
    · rw [gridSlots_of_ge tm tol _ j (by omega)] at h
      exact absurd h hj

/-- C3 (amended): for every chunk whose observed times are all consumed by
the grid construction (final cursor = number of observed times) and whose
median cadence spacing `Δt` is positive, the grid's non-gap slots hold
exactly the observed times, in order, each in exactly one non-gap slot; the
grid positions are strictly increasing; and the total slot count is
`⌈((lastTime + Δt/5) - firstTime)/Δt⌉` — the `np.arange` length, which can
differ by one from the claimed `round((lastTime-firstTime)/Δt) + 1`. -/
theorem uniform_grid_invariants (tm : List ℚ)
    (hne : tm ≠ [])
    (hdt : 0 < npMedian (npDiff tm))
    (hdone : (buildGrid tm).2.2 = tm.length) :
    npDelete (buildGrid tm).1 (buildGrid tm).2.1 = tm ∧
    List.Chain' (fun a b => a < b) (buildGrid tm).1 ∧
    (buildGrid tm).1.length =
      (⌈((tm.getLastD 0 + npMedian (npDiff tm) / 5) - tm.headD 0) /
          npMedian (npDiff tm)⌉).toNat := by
  have hlen : 0 < tm.length := List.length_pos.mpr hne
  set dt := npMedian (npDiff tm) with hdtdef
  have htunif : npArange (tm.headD 0) (tm.getLastD 0 + dt / 5) dt =
      arangeAux (tm.headD 0) dt
        (⌈((tm.getLastD 0 + dt / 5) - tm.headD 0) / dt⌉).toNat := by
    rw [npArange, if_pos hdt]
  have hchain : List.Chain' (fun a b => b = a + dt)
      (npArange (tm.headD 0) (tm.getLastD 0 + dt / 5) dt) := by
    rw [htunif]; exact arangeAux_chain dt _ _
  have hbound : ∀ x ∈ npArange (tm.headD 0) (tm.getLastD 0 + dt / 5) dt,
      x < tm.getLastD 0 + dt / 5 := npArange_lt_stop _ _ _ hdt
  have hb : buildGrid tm =
      ((gridSlots tm (dt / 5)
          (npArange (tm.headD 0) (tm.getLastD 0 + dt / 5) dt) 0).1.map Prod.fst,
        gapIndicesAux (gridSlots tm (dt / 5)
          (npArange (tm.headD 0) (tm.getLastD 0 + dt / 5) dt) 0).1 0,
        (gridSlots tm (dt / 5)
          (npArange (tm.headD 0) (tm.getLastD 0 + dt / 5) dt) 0).2) := rfl
  rw [hb] at hdone ⊢
  dsimp only at hdone ⊢
  refine ⟨?_, ?_, ?_⟩
  · rw [npDelete, npDeleteAux_gapIndices]
    have := gridSlots_consume tm dt hdt
      (npArange (tm.headD 0) (tm.getLastD 0 + dt / 5) dt) 0 hchain hbound hlen hdone
    simpa using this
  · exact chain_lt_of_close dt hdt _ _
      (gridSlots_close tm (dt / 5) (by positivity) _ 0) hchain
  · rw [List.length_map, gridSlots_length, htunif, arangeAux_length]

/-- Counterexample for C3 as stated: chunk times `[0, 1, 2, 2.6]` have median
spacing `Δt = 1`; the constructed grid has 3 slots (`np.arange` stops at
`2.6 + 0.2`), not `round((2.6-0)/1) + 1 = 4`, and drops the observed time
`2.6` entirely: the non-gap slots do not hold the chunk's observed times. -/
theorem uniform_grid_invariants_cex :
    npMedian (npDiff [0, 1, 2, 13/5]) = 1 ∧
    buildGrid [0, 1, 2, 13/5] = ([0, 1, 2], [], 3) ∧
    (npRound (((13/5 : ℚ) - 0) / 1)).toNat + 1 = 4 ∧
    npDelete [0, 1, 2] [] ≠ [0, 1, 2, 13/5] := by
  have hmed : npMedian (npDiff [(0:ℚ), 1, 2, 13/5]) = 1 := by
    norm_num [npMedian, npDiff, sortRat, insertRat]
  have harange : npArange 0 (13/5 + 1/5) 1 = [0, 1, 2] := by
    rw [npArange, if_pos (by norm_num : (0:ℚ) < 1)]
    have hc : ⌈((13/5 + 1/5 : ℚ) - 0) / 1⌉ = 3 := by
      norm_num [Int.ceil_eq_iff]
    rw [hc]
    norm_num [arangeAux]
  refine ⟨hmed, ?_, ?_, ?_⟩
  · have hb : buildGrid [0, 1, 2, 13/5] =
        ((gridSlots [0, 1, 2, 13/5] (npMedian (npDiff [0, 1, 2, 13/5]) / 5)
            (npArange 0 (13/5 + npMedian (npDiff [0, 1, 2, 13/5]) / 5)
              (npMedian (npDiff [0, 1, 2, 13/5]))) 0).1.map Prod.fst,
          gapIndicesAux (gridSlots [0, 1, 2, 13/5]
            (npMedian (npDiff [0, 1, 2, 13/5]) / 5)
            (npArange 0 (13/5 + npMedian (npDiff [0, 1, 2, 13/5]) / 5)
              (npMedian (npDiff [0, 1, 2, 13/5]))) 0).1 0,
          (gridSlots [0, 1, 2, 13/5] (npMedian (npDiff [0, 1, 2, 13/5]) / 5)
            (npArange 0 (13/5 + npMedian (npDiff [0, 1, 2, 13/5]) / 5)
              (npMedian (npDiff [0, 1, 2, 13/5]))) 0).2) := rfl
    rw [hb, hmed, harange]
    norm_num [gridSlots, gapIndicesAux]
  · have hf : ⌊((13/5 : ℚ) - 0) / 1⌋ = 2 := by
      norm_num [Int.floor_eq_iff]
    have h : npRound (((13/5 : ℚ) - 0) / 1) = 3 := by
      rw [npRound, hf]
      norm_num
    rw [h]; rfl
  · intro h
    have := congrArg List.length h
    simp [npDelete, npDeleteAux] at this

/-- Witness for C3 (amended) at the concrete chunk `[0, 1]`. -/
theorem uniform_grid_invariants_witness :
    npDelete (buildGrid [0, 1]).1 (buildGrid [0, 1]).2.1 = [0, 1] ∧
    List.Chain' (fun a b => a < b) (buildGrid [0, 1]).1 ∧
    (buildGrid [0, 1]).1.length =
      (⌈((List.getLastD [0, 1] 0 + npMedian (npDiff [0, 1]) / 5) -
          List.headD [0, 1] 0) / npMedian (npDiff [0, 1])⌉).toNat := by
  have hmed : npMedian (npDiff [(0:ℚ), 1]) = 1 := by
    norm_num [npMedian, npDiff, sortRat, insertRat]
  have hdone : (buildGrid [(0:ℚ), 1]).2.2 = 2 := by
    have hb : (buildGrid [(0:ℚ), 1]).2.2 =
        (gridSlots [0, 1] (npMedian (npDiff [0, 1]) / 5)
          (npArange 0 (1 + npMedian (npDiff [0, 1]) / 5)
            (npMedian (npDiff [0, 1]))) 0).2 := rfl
    have harange : npArange 0 (1 + 1/5) 1 = [0, 1] := by
      rw [npArange, if_pos (by norm_num : (0:ℚ) < 1)]
      have hc : ⌈((1 + 1/5 : ℚ) - 0) / 1⌉ = 2 := by
        norm_num [Int.ceil_eq_iff]
      rw [hc]
      norm_num [arangeAux]
    rw [hb, hmed, harange]
    norm_num [gridSlots]
  exact uniform_grid_invariants [0, 1] (by simp) (by rw [hmed]; norm_num) hdone

/-- C4 (amended): observed times are consumed in order, each at most once;
but when the cursor has not advanced through all observed times by the time
the grid is exhausted, `GetChunkData` raises no error: it silently returns
the grid whose non-gap slots hold only the first `j` observed times (the
final cursor value), omitting the rest.  There is no malformed-grid error
path in the source. -/
theorem grid_silent_truncation (tm : List ℚ)
    (h : (buildGrid tm).2.2 < tm.length) :
    npDelete (buildGrid tm).1 (buildGrid tm).2.1 = tm.take (buildGrid tm).2.2 := by
  have hb : buildGrid tm =
      ((gridSlots tm (npMedian (npDiff tm) / 5)
          (npArange (tm.headD 0)
            (tm.getLastD 0 + npMedian (npDiff tm) / 5)
            (npMedian (npDiff tm))) 0).1.map Prod.fst,
        gapIndicesAux (gridSlots tm (npMedian (npDiff tm) / 5)
          (npArange (tm.headD 0)
            (tm.getLastD 0 + npMedian (npDiff tm) / 5)
            (npMedian (npDiff tm))) 0).1 0,
        (gridSlots tm (npMedian (npDiff tm) / 5)
          (npArange (tm.headD 0)
            (tm.getLastD 0 + npMedian (npDiff tm) / 5)
            (npMedian (npDiff tm))) 0).2) := rfl
  rw [hb] at h ⊢
  dsimp only at h ⊢
  obtain ⟨hle, heq⟩ := gridSlots_truncated tm (npMedian (npDiff tm) / 5)
    (npArange (tm.headD 0) (tm.getLastD 0 + npMedian (npDiff tm) / 5)
      (npMedian (npDiff tm))) 0 h
  rw [npDelete, npDeleteAux_gapIndices, heq]
  simp

/-- Counterexample for C4 as stated: observed times `[0, 10, 20, 21]` have
median spacing 10; the grid `[0, 10, 20]` consumes only the first three
observed times (final cursor 3 of 4) and `GetChunkData` returns it without
any error — the observed time 21 is silently dropped, not reported. -/
theorem grid_silent_truncation_cex :
    (buildGrid [0, 10, 20, 21]).2.2 = 3 ∧
    npDelete (buildGrid [0, 10, 20, 21]).1 (buildGrid [0, 10, 20, 21]).2.1 =
      [0, 10, 20] ∧
    (21 : ℚ) ∉ (buildGrid [0, 10, 20, 21]).1 := by
  have hmed : npMedian (npDiff [(0:ℚ), 10, 20, 21]) = 10 := by
    norm_num [npMedian, npDiff, sortRat, insertRat]
  have harange : npArange 0 (21 + 10 / 5) 10 = [0, 10, 20] := by
    rw [npArange, if_pos (by norm_num : (0:ℚ) < 10)]
    have hc : ⌈((21 + 10 / 5 : ℚ) - 0) / 10⌉ = 3 := by
      norm_num [Int.ceil_eq_iff]
    rw [hc]
    norm_num [arangeAux]
  have hb : buildGrid [0, 10, 20, 21] =
      ((gridSlots [0, 10, 20, 21] (npMedian (npDiff [0, 10, 20, 21]) / 5)
          (npArange 0 (21 + npMedian (npDiff [0, 10, 20, 21]) / 5)
            (npMedian (npDiff [0, 10, 20, 21]))) 0).1.map Prod.fst,
        gapIndicesAux (gridSlots [0, 10, 20, 21]
          (npMedian (npDiff [0, 10, 20, 21]) / 5)
          (npArange 0 (21 + npMedian (npDiff [0, 10, 20, 21]) / 5)
            (npMedian (npDiff [0, 10, 20, 21]))) 0).1 0,
        (gridSlots [0, 10, 20, 21] (npMedian (npDiff [0, 10, 20, 21]) / 5)
          (npArange 0 (21 + npMedian (npDiff [0, 10, 20, 21]) / 5)
            (npMedian (npDiff [0, 10, 20, 21]))) 0).2) := rfl
  rw [hb, hmed, harange]
  norm_num [gridSlots, gapIndicesAux, npDelete, npDeleteAux]

/-- Witness for C4 (amended) at the concrete chunk `[0, 10, 20, 21]`:
the returned grid's non-gap slots are the first 3 observed times. -/
theorem grid_silent_truncation_witness :
    npDelete (buildGrid [0, 10, 20, 21]).1 (buildGrid [0, 10, 20, 21]).2.1 =
      List.take (buildGrid [0, 10, 20, 21]).2.2 [0, 10, 20, 21] := by
  refine grid_silent_truncation [0, 10, 20, 21] ?_
  have hmed : npMedian (npDiff [(0:ℚ), 10, 20, 21]) = 10 := by
    norm_num [npMedian, npDiff, sortRat, insertRat]
  have harange : npArange 0 (21 + 10 / 5) 10 = [0, 10, 20] := by
    rw [npArange, if_pos (by norm_num : (0:ℚ) < 10)]
    have hc : ⌈((21 + 10 / 5 : ℚ) - 0) / 10⌉ = 3 := by
      norm_num [Int.ceil_eq_iff]
    rw [hc]
    norm_num [arangeAux]
  have hb : (buildGrid [0, 10, 20, 21]).2.2 =
      (gridSlots [0, 10, 20, 21] (npMedian (npDiff [0, 10, 20, 21]) / 5)
        (npArange 0 (21 + npMedian (npDiff [0, 10, 20, 21]) / 5)
          (npMedian (npDiff [0, 10, 20, 21]))) 0).2 := rfl
  rw [hb, hmed, harange]
  norm_num [gridSlots]

/-! ## Period/Phase Folder (`Heatmap`, lines 26–43)

For each trial period and phase: `t0 = time[0] + phase*period`,
`tf = t0 + period * int((time[-1] - t0)/period)`,
`times = np.arange(t0, tf, period)`, and for each fold time
`z[i,j] += delta_chisq[int(round((t - time[0])/dt))]` with
`dt = nanmedian(diff(time))`.  An out-of-range index raises `IndexError` in
the source, modelled by the cell value `none`. -/

/-- The per-cell accumulation `z[i,j] += delta_chisq[ind]` over a list of
indices; `none` as soon as an index is out of range. -/
def accumCell (dchisq : List ℚ) (inds : List ℤ) : Option ℚ :=
  inds.foldl (fun acc i =>
    match acc, npIndex dchisq i with
    | some a, some v => some (a + v)
    | _, _ => none) (some 0)

/-- The fold-time sequence of `Heatmap` (lines 35–37). -/
def foldTimes (time : List ℚ) (period phase : ℚ) : List ℚ :=
  let t0 := time.headD 0 + phase * period
  let tf := t0 + period * ((pyInt ((time.getLastD 0 - t0) / period)) : ℚ)
  npArange t0 tf period

/-- One `(period, phase)` cell of the heat map (lines 35–42). -/
def heatCell (time dchisq : List ℚ) (period phase : ℚ) : Option ℚ :=
  accumCell dchisq ((foldTimes time period phase).map
    (fun t => npRound ((t - time.headD 0) / npMedian (npDiff time))))

/-- Embeds `Heatmap(time, delta_chisq, periods, phases)` (lines 26–43): the 2-D
array of accumulated Δχ² values, one row per trial period, one column per
trial phase. -/
def Heatmap (time dchisq : List ℚ) (periods phases : List ℚ) :
    List (List (Option ℚ)) :=
  periods.map (fun period => phases.map (fun phase =>
    heatCell time dchisq period phase))

/-- Modelled from the claim's words (for comparison with `Heatmap`): the
fold sequence `t0, t0+P, t0+2P, …` of every multiple strictly less than
`time[last]`, i.e. `np.arange(t0, time[last], P)`. -/
def specFoldTimes (time : List ℚ) (period phase : ℚ) : List ℚ :=
  npArange (time.headD 0 + phase * period) (time.getLastD 0) period

/-- The cell value the claim describes: accumulation over `specFoldTimes`. -/
def specHeatCell (time dchisq : List ℚ) (period phase : ℚ) : Option ℚ :=
  accumCell dchisq ((specFoldTimes time period phase).map
    (fun t => npRound ((t - time.headD 0) / npMedian (npDiff time))))

theorem arangeAux_eq_map (step : ℚ) :
    ∀ n start, arangeAux start step n =
      (List.range n).map (fun (k : ℕ) => start + (k : ℚ) * step) := by
  intro n
  induction n with
  | zero => intro start; rfl
  | succ m ih =>
    intro start
    rw [arangeAux, ih (start + step), List.range_succ_eq_map, List.map_cons,
      List.map_map]
    refine List.cons_eq_cons.mpr ⟨by norm_num, ?_⟩
    refine List.map_congr_left ?_
    intro k _
    simp only [Function.comp_apply]
    push_cast
    ring

/-- The fold-time sequence written out: `t0 + k*P` for
`k < int((time[-1] - t0)/P)` (truncation toward zero). -/
theorem foldTimes_eq (time : List ℚ) (P φ : ℚ) (hP : 0 < P) :
    foldTimes time P φ = (List.range
        (pyInt ((time.getLastD 0 - (time.headD 0 + φ * P)) / P)).toNat).map
      (fun (k : ℕ) => (time.headD 0 + φ * P) + (k : ℚ) * P) := by
  rw [foldTimes]
  rw [npArange, if_pos hP]
  have h1 : ((time.headD 0 + φ * P +
      P * ((pyInt ((time.getLastD 0 - (time.headD 0 + φ * P)) / P)) : ℚ)) -
        (time.headD 0 + φ * P)) / P =
      ((pyInt ((time.getLastD 0 - (time.headD 0 + φ * P)) / P)) : ℚ) := by
    field_simp
  rw [h1, Int.ceil_intCast, arangeAux_eq_map]

theorem npRound_cases (q : ℚ) : npRound q = ⌊q⌋ ∨ npRound q = ⌊q⌋ + 1 := by
  rw [npRound]
  split_ifs <;> simp

theorem npRound_nonneg (q : ℚ) (h : 0 ≤ q) : 0 ≤ npRound q := by
  have hf := Int.floor_nonneg.mpr h
  rcases npRound_cases q with h1 | h1 <;> omega

theorem npRound_mono (q r : ℚ) (h : q ≤ r) : npRound q ≤ npRound r := by
  have hf : ⌊q⌋ ≤ ⌊r⌋ := Int.floor_le_floor h
  by_cases heq : ⌊q⌋ = ⌊r⌋
  · by_cases h1 : q - ⌊q⌋ < 1/2
    · rw [npRound, if_pos h1]
      rcases npRound_cases r with h2 | h2 <;> omega
    · have hfr : ¬ (r - ⌊r⌋ < 1/2) := by
        rw [← heq]
        push_neg at h1 ⊢
        calc (1:ℚ)/2 ≤ q - ⌊q⌋ := h1
        _ ≤ r - ⌊q⌋ := by linarith
      by_cases h3 : 1/2 < q - ⌊q⌋
      · have h4 : 1/2 < r - ⌊r⌋ := by
          rw [← heq]
          have : q - ⌊q⌋ ≤ r - ⌊q⌋ := by linarith
          linarith
        rw [npRound, if_neg h1, if_pos h3, npRound, if_neg hfr, if_pos h4]
        omega
      · by_cases h4 : 1/2 < r - ⌊r⌋
        · rw [npRound, if_neg h1, if_neg h3, npRound, if_neg hfr, if_pos h4]
          split_ifs <;> omega
        · rw [npRound, if_neg h1, if_neg h3, npRound, if_neg hfr, if_neg h4, heq]
  · have hlt : ⌊q⌋ + 1 ≤ ⌊r⌋ := by omega
    rcases npRound_cases q with h1 | h1 <;> rcases npRound_cases r with h2 | h2 <;>
      omega

theorem npIndex_isSome (xs : List ℚ) (i : ℤ) (h0 : 0 ≤ i)
    (hl : i < (xs.length : ℤ)) : (npIndex xs i).isSome := by
  rw [npIndex, if_pos ⟨h0, hl⟩]
  have hlt : i.toNat < xs.length := by omega
  simp [List.get?_eq_getElem?, List.getElem?_eq_getElem hlt]

theorem accumCell_isSome_aux (dchisq : List ℚ) :
    ∀ (inds : List ℤ) (a : ℚ), (∀ i ∈ inds, (npIndex dchisq i).isSome) →
      (inds.foldl (fun acc i =>
        match acc, npIndex dchisq i with
        | some a, some v => some (a + v)
        | _, _ => none) (some a)).isSome := by
  intro inds
  induction inds with
  | nil => intro a _; rfl
  | cons i inds ih =>
    intro a h
    have hi := h i (List.mem_cons_self i inds)
    obtain ⟨v, hv⟩ := Option.isSome_iff_exists.mp hi
    rw [List.foldl_cons, hv]
    exact ih (a + v) (fun k hk => h k (List.mem_cons_of_mem i hk))

theorem accumCell_isSome (dchisq : List ℚ) (inds : List ℤ)
    (h : ∀ i ∈ inds, (npIndex dchisq i).isSome) :
    (accumCell dchisq inds).isSome :=
  accumCell_isSome_aux dchisq inds 0 h

/-- Every fold time is at most `time[last] - P` (the sequence stops one full
period short of the last multiple below `time[last]`). -/
theorem foldTimes_le (time : List ℚ) (P φ : ℚ) (hP : 0 < P) :
    ∀ t ∈ foldTimes time P φ, t ≤ time.getLastD 0 - P := by
  intro t ht
  rw [foldTimes_eq time P φ hP] at ht
  rcases List.mem_map.mp ht with ⟨k, hk, rfl⟩
  rw [List.mem_range] at hk
  set t0 := time.headD 0 + φ * P with ht0
  set x := (time.getLastD 0 - t0) / P with hx
  have hxP : x * P = time.getLastD 0 - t0 := div_mul_cancel₀ _ (ne_of_gt hP)
  by_cases hx0 : 0 ≤ x
  · have hz : pyInt x = ⌊x⌋ := if_pos hx0
    rw [hz] at hk
    have hk2 : (k : ℤ) + 1 ≤ ⌊x⌋ := by omega
    have hk3 : (k : ℚ) + 1 ≤ x := by
      calc ((k : ℚ) + 1) = ((((k : ℤ) + 1) : ℤ) : ℚ) := by push_cast; ring
      _ ≤ (⌊x⌋ : ℚ) := by exact_mod_cast hk2
      _ ≤ x := Int.floor_le x
    have : ((k : ℚ) + 1) * P ≤ x * P := by
      exact mul_le_mul_of_nonneg_right hk3 (le_of_lt hP)
    rw [hxP] at this
    nlinarith
  · have hz : pyInt x ≤ 0 := by
      rw [pyInt, if_neg hx0]
      exact Int.ceil_le.mpr (by exact_mod_cast (not_le.mp hx0).le)
    omega

/-- C7 (amended): with strictly positive trial periods, nonnegative trial
phases, strictly positive median cadence spacing and a Δχ² series covering
`round((time[last]-time[0])/Δt)` at that spacing, folding never raises: every
cell of the heat map is defined (no division by zero is reached and every
computed index falls inside the Δχ² series).  A trial period larger than the
full time baseline produces a fold sequence with at most one sample point
(in fact zero). -/
theorem folder_index_bounds (time dchisq : List ℚ) (periods phases : List ℚ)
    (hdt : 0 < npMedian (npDiff time))
    (hper : ∀ P ∈ periods, 0 < P)
    (hpha : ∀ φ ∈ phases, 0 ≤ φ)
    (hlen : (npRound ((time.getLastD 0 - time.headD 0) /
        npMedian (npDiff time))).toNat < dchisq.length) :
    (∀ row ∈ Heatmap time dchisq periods phases, ∀ cell ∈ row, cell.isSome) ∧
    (∀ P ∈ periods, ∀ φ ∈ phases, time.getLastD 0 - time.headD 0 < P →
      (foldTimes time P φ).length ≤ 1) := by
  constructor
  · intro row hrow cell hcell
    rcases List.mem_map.mp hrow with ⟨P, hPmem, rfl⟩
    rcases List.mem_map.mp hcell with ⟨φ, hφmem, rfl⟩
    have hP := hper P hPmem
    have hφ := hpha φ hφmem
    rw [heatCell]
    refine accumCell_isSome dchisq _ ?_
    intro ind hind
    rcases List.mem_map.mp hind with ⟨t, htmem, rfl⟩
    have hge : time.headD 0 ≤ t := by
      rw [foldTimes_eq time P φ hP] at htmem
      rcases List.mem_map.mp htmem with ⟨k, _, rfl⟩
      have h1 : 0 ≤ φ * P := mul_nonneg hφ (le_of_lt hP)
      have h2 : 0 ≤ (k : ℚ) * P := mul_nonneg (by positivity) (le_of_lt hP)
      linarith
    have hle : t ≤ time.getLastD 0 := by
      have := foldTimes_le time P φ hP t htmem
      linarith
    have hq0 : 0 ≤ (t - time.headD 0) / npMedian (npDiff time) :=
      div_nonneg (by linarith) (le_of_lt hdt)
    have h0 : 0 ≤ npRound ((t - time.headD 0) / npMedian (npDiff time)) :=
      npRound_nonneg _ hq0
    have hmono : npRound ((t - time.headD 0) / npMedian (npDiff time)) ≤
        npRound ((time.getLastD 0 - time.headD 0) / npMedian (npDiff time)) := by
      refine npRound_mono _ _ ?_
      gcongr
    refine npIndex_isSome dchisq _ h0 ?_
    omega
  · intro P hPmem φ hφmem hbase
    have hP := hper P hPmem
    have hφ := hpha φ hφmem
    rw [foldTimes_eq time P φ hP, List.length_map, List.length_range]
    set x := (time.getLastD 0 - (time.headD 0 + φ * P)) / P with hx
    have hxlt : x < 1 := by
      rw [hx, div_lt_one hP]
      have h1 : 0 ≤ φ * P := mul_nonneg hφ (le_of_lt hP)
      linarith
    by_cases hx0 : 0 ≤ x
    · have hz : pyInt x = ⌊x⌋ := if_pos hx0
      have : ⌊x⌋ = 0 := by
        rw [Int.floor_eq_zero_iff]
        exact ⟨hx0, hxlt⟩
      omega
    · have hz : pyInt x ≤ 0 := by
        rw [pyInt, if_neg hx0]
        exact Int.ceil_le.mpr (by exact_mod_cast (not_le.mp hx0).le)
      omega

/-- C2 (amended): for trial period `P` and phase `φ`, the Folder computes
`t0 = time[0] + φ·P` and accumulates, into cell `(P, φ)`, the Δχ² values at
indices `round((t - time[0])/Δt)` (Δt the median cadence spacing, rounding
half to even) over the arithmetic fold-time sequence `t0 + k·P` for
`0 ≤ k < int((time[last] - t0)/P)` — truncation toward zero.  Every fold
time is therefore at most `time[last] - P`; when `(time[last] - t0)/P` is
not an integer this sequence stops one multiple short of the claimed
"all multiples strictly below `time[last]`". -/
theorem heatmap_fold_sequence (time dchisq : List ℚ) (periods phases : List ℚ)
    (i j : ℕ) (P φ : ℚ) (hi : periods.get? i = some P)
    (hj : phases.get? j = some φ) (hP : 0 < P) :
    (Heatmap time dchisq periods phases).get? i =
      some (phases.map (fun ψ => heatCell time dchisq P ψ)) ∧
    (phases.map (fun ψ => heatCell time dchisq P ψ)).get? j =
      some (heatCell time dchisq P φ) ∧
    heatCell time dchisq P φ = accumCell dchisq ((foldTimes time P φ).map
      (fun t => npRound ((t - time.headD 0) / npMedian (npDiff time)))) ∧
    foldTimes time P φ = (List.range
        (pyInt ((time.getLastD 0 - (time.headD 0 + φ * P)) / P)).toNat).map
      (fun (k : ℕ) => (time.headD 0 + φ * P) + (k : ℚ) * P) ∧
    (∀ t ∈ foldTimes time P φ, t ≤ time.getLastD 0 - P) := by
  refine ⟨?_, ?_, rfl, foldTimes_eq time P φ hP, foldTimes_le time P φ hP⟩
  · rw [List.get?_eq_getElem?] at hi ⊢
    rw [Heatmap, List.getElem?_map, hi]
    rfl
  · rw [List.get?_eq_getElem?] at hj ⊢
    rw [List.getElem?_map, hj]
    rfl

/-- Counterexample for C2 as stated: `time = [0,1,2,3,4]` (Δt = 1),
`Δχ² = [1,0,0,10,0]`, trial period 3, phase 0.  The claimed fold sequence is
every multiple below `time[last] = 4`, i.e. `[0, 3]`, accumulating
`1 + 10 = 11`; the code's sequence is `np.arange(0, 3, 3) = [0]`
(`tf = t0 + P*int((4-0)/3) = 3`), accumulating only `1`: the fold time `3`,
although strictly below `time[last]`, is omitted. -/
theorem heatmap_fold_sequence_cex :
    Heatmap [0, 1, 2, 3, 4] [1, 0, 0, 10, 0] [3] [0] = [[some 1]] ∧
    specHeatCell [0, 1, 2, 3, 4] [1, 0, 0, 10, 0] 3 0 = some 11 ∧
    foldTimes [0, 1, 2, 3, 4] 3 0 = [0] ∧
    specFoldTimes [0, 1, 2, 3, 4] 3 0 = [0, 3] ∧
    (3 : ℚ) < List.getLastD [0, 1, 2, 3, 4] 0 := by
  have h0 : List.headD [(0:ℚ), 1, 2, 3, 4] 0 = 0 := rfl
  have h4 : List.getLastD [(0:ℚ), 1, 2, 3, 4] 0 = 4 := rfl
  have hmed : npMedian (npDiff [(0:ℚ), 1, 2, 3, 4]) = 1 := by
    norm_num [npMedian, npDiff, sortRat, insertRat]
  have hfold : foldTimes [(0:ℚ), 1, 2, 3, 4] 3 0 = [0] := by
    rw [foldTimes_eq _ _ _ (by norm_num), h0, h4]
    have hpy : pyInt (((4:ℚ) - (0 + 0 * 3)) / 3) = 1 := by
      rw [pyInt, if_pos (by norm_num)]
      have harg : ((4:ℚ) - (0 + 0 * 3)) / 3 = 4/3 := by norm_num
      rw [harg]
      norm_num [Int.floor_eq_iff]
    rw [hpy]
    rw [show Int.toNat 1 = 1 from rfl]
    norm_num [List.range_succ]
  have hspecfold : specFoldTimes [(0:ℚ), 1, 2, 3, 4] 3 0 = [0, 3] := by
    rw [specFoldTimes, h0, h4, npArange, if_pos (by norm_num : (0:ℚ) < 3)]
    have hc : ⌈((4:ℚ) - (0 + 0 * 3)) / 3⌉ = 2 := by
      have harg : ((4:ℚ) - (0 + 0 * 3)) / 3 = 4/3 := by norm_num
      rw [harg]
      norm_num [Int.ceil_eq_iff]
    rw [hc]
    norm_num [arangeAux]
  have hr0 : npRound ((0:ℚ) - 0) = 0 := by norm_num [npRound]
  have hr3 : npRound ((3:ℚ) - 0) = 3 := by norm_num [npRound, Int.floor_eq_iff]
  refine ⟨?_, ?_, hfold, hspecfold, by rw [h4]; norm_num⟩
  · rw [Heatmap]
    simp only [List.map_cons, List.map_nil]
    rw [heatCell, hfold, hmed, h0]
    simp only [List.map_cons, List.map_nil, div_one]
    rw [hr0]
    norm_num [accumCell, npIndex]
  · rw [specHeatCell, hspecfold, hmed, h0]
    simp only [List.map_cons, List.map_nil, div_one]
    rw [hr0, hr3]
    norm_num [accumCell, npIndex]
    simp only [show Int.toNat 3 = 3 from rfl]
    norm_num

/-- Witness for C2 (amended) at `time = [0,1,2,3,4]`, `Δχ² = [1,0,0,10,0]`,
period 3, phase 0 (cell `(0,0)` of a 1×1 trial grid). -/
theorem heatmap_fold_sequence_witness :
    (Heatmap [0, 1, 2, 3, 4] [1, 0, 0, 10, 0] [3] [0]).get? 0 =
      some ([0].map (fun ψ => heatCell [0, 1, 2, 3, 4] [1, 0, 0, 10, 0] 3 ψ)) ∧
    ([0].map (fun ψ => heatCell [0, 1, 2, 3, 4] [1, 0, 0, 10, 0] 3 ψ)).get? 0 =
      some (heatCell [0, 1, 2, 3, 4] [1, 0, 0, 10, 0] 3 0) ∧
    heatCell [0, 1, 2, 3, 4] [1, 0, 0, 10, 0] 3 0 =
      accumCell [1, 0, 0, 10, 0] ((foldTimes [0, 1, 2, 3, 4] 3 0).map
        (fun t => npRound ((t - List.headD [0, 1, 2, 3, 4] 0) /
          npMedian (npDiff [0, 1, 2, 3, 4])))) ∧
    foldTimes [0, 1, 2, 3, 4] 3 0 = (List.range
        (pyInt ((List.getLastD [0, 1, 2, 3, 4] 0 -
          (List.headD [0, 1, 2, 3, 4] 0 + 0 * 3)) / 3)).toNat).map
      (fun (k : ℕ) => (List.headD [0, 1, 2, 3, 4] 0 + 0 * 3) + (k : ℚ) * 3) ∧
    (∀ t ∈ foldTimes [0, 1, 2, 3, 4] 3 0,
      t ≤ List.getLastD [0, 1, 2, 3, 4] 0 - 3) :=
  heatmap_fold_sequence [0, 1, 2, 3, 4] [1, 0, 0, 10, 0] [3] [0] 0 0 3 0
    rfl rfl (by norm_num)

/-- Counterexample for C7 as stated: with strictly positive trial period 1
(and phase 0), `time = [0, 0.1, 0.2, 2]` has median spacing `Δt = 0.1` but a
large gap before its last point; the fold time `1` maps to index
`round((1-0)/0.1) = 10`, out of bounds for the 4-entry Δχ² series
`[0,0,0,0]`: the source raises `IndexError` (cell value `none`). -/
theorem folder_index_bounds_cex :
    Heatmap [0, 1/10, 2/10, 2] [0, 0, 0, 0] [1] [0] = [[none]] ∧
    foldTimes [0, 1/10, 2/10, 2] 1 0 = [0, 1] ∧
    npMedian (npDiff [0, 1/10, 2/10, 2]) = 1/10 ∧
    npRound (((1:ℚ) - 0) / (1/10)) = 10 ∧
    List.length [(0:ℚ), 0, 0, 0] = 4 := by
  have h0 : List.headD [(0:ℚ), 1/10, 2/10, 2] 0 = 0 := rfl
  have h2 : List.getLastD [(0:ℚ), 1/10, 2/10, 2] 0 = 2 := rfl
  have hmed : npMedian (npDiff [(0:ℚ), 1/10, 2/10, 2]) = 1/10 := by
    norm_num [npMedian, npDiff, sortRat, insertRat]
  have hfold : foldTimes [(0:ℚ), 1/10, 2/10, 2] 1 0 = [0, 1] := by
    rw [foldTimes_eq _ _ _ (by norm_num), h0, h2]
    have hpy : pyInt (((2:ℚ) - (0 + 0 * 1)) / 1) = 2 := by
      rw [pyInt, if_pos (by norm_num)]
      have harg : ((2:ℚ) - (0 + 0 * 1)) / 1 = 2 := by norm_num
      rw [harg]
      norm_num
    rw [hpy]
    rw [show Int.toNat 2 = 2 from rfl]
    norm_num [List.range_succ]
  have hr0 : npRound (((0:ℚ) - 0) / (1/10)) = 0 := by norm_num [npRound]
  have hr10 : npRound (((1:ℚ) - 0) / (1/10)) = 10 := by
    have harg : ((1:ℚ) - 0) / (1/10) = 10 := by norm_num
    rw [harg]
    norm_num [npRound, Int.floor_eq_iff]
  refine ⟨?_, hfold, hmed, hr10, rfl⟩
  rw [Heatmap]
  simp only [List.map_cons, List.map_nil]
  rw [heatCell, hfold, hmed, h0]
  simp only [List.map_cons, List.map_nil]
  rw [hr0, hr10]
  norm_num [accumCell, npIndex]

/-- Witness for C7 (amended) at `time = [0,1,2,3,4]`,
`Δχ² = [5,0,0,0,7]`, trial periods `[2]`, phases `[0]`. -/
theorem folder_index_bounds_witness :
    (∀ row ∈ Heatmap [0, 1, 2, 3, 4] [5, 0, 0, 0, 7] [2] [0],
      ∀ cell ∈ row, cell.isSome) ∧
    (∀ P ∈ ([2] : List ℚ), ∀ φ ∈ ([0] : List ℚ),
      List.getLastD [0, 1, 2, 3, 4] 0 - List.headD [0, 1, 2, 3, 4] 0 < P →
      (foldTimes [0, 1, 2, 3, 4] P φ).length ≤ 1) := by
  refine folder_index_bounds [0, 1, 2, 3, 4] [5, 0, 0, 0, 7] [2] [0]
    (by norm_num [npMedian, npDiff, sortRat, insertRat])
    (by intro P hP; rw [List.mem_singleton] at hP; rw [hP]; norm_num)
    (by intro φ hφ; rw [List.mem_singleton] at hφ; rw [hφ])
    ?_
  have h0 : List.headD [(0:ℚ), 1, 2, 3, 4] 0 = 0 := rfl
  have h4 : List.getLastD [(0:ℚ), 1, 2, 3, 4] 0 = 4 := rfl
  have hmed : npMedian (npDiff [(0:ℚ), 1, 2, 3, 4]) = 1 := by
    norm_num [npMedian, npDiff, sortRat, insertRat]
  rw [h0, h4, hmed]
  have hr : npRound (((4:ℚ) - 0) / 1) = 4 := by
    have harg : ((4:ℚ) - 0) / 1 = 4 := by norm_num
    rw [harg]
    norm_num [npRound, Int.floor_eq_iff]
  rw [hr]
  norm_num

/-! ## The light-curve object

The fields of the everest star object that `tools.py` reads or writes.
`kernel`/`kernel_params` are not modelled separately: they only parametrize
the external `GetCovariance`, which is abstracted as a closure over them.
`get_masked_chunk` is an external everest method, abstracted as a field. -/

structure Star where
  ID : ℕ
  time : List ℚ
  flux : List ℚ
  fraw : List ℚ
  fraw_err : List ℚ
  nanmask : List ℕ
  badmask : List ℕ
  outmask : List ℕ
  transitmask : List ℕ
  breakpoints : List ℕ
  pld_order : ℕ
  ncols : ℕ
  lam : ℕ → ℕ → ℚ
  Xmat : ℕ → ℕ → ℕ → ℚ
  maskedChunk : ℕ → List ℕ

/-! ## Outlier filter (`MaskOutliers`, lines 45–71) -/

/-- Helper for `np.where(p(f))[0]`: positions satisfying `p`, ascending. -/
def whereAux (p : ℚ → Bool) : List ℚ → ℕ → List ℕ
  | [], _ => []
  | x :: xs, k =>
    if p x then k :: whereAux p xs (k + 1) else whereAux p xs (k + 1)

/-- Embeds `np.where(p(f))[0]`. -/
def npWhere (p : ℚ → Bool) (xs : List ℚ) : List ℕ := whereAux p xs 0

/-- Embeds `np.argmax(xs == v)`: the first position of `xs` equal to `v`, and 0
when there is none (argmax over an all-False boolean array). -/
def argmaxAux (v : ℚ) : List ℚ → ℕ → ℕ
  | [], _ => 0
  | x :: xs, k => if x = v then k else argmaxAux v xs (k + 1)

/-- The smoothed fluxes of `MaskOutliers` (lines 53–55): drop the
nan/bad-masked cadences and smooth with the external `SavGol`. -/
def smoothFlux (savgol : List ℚ → List ℚ) (star : Star) : List ℚ :=
  savgol (npDelete star.flux (star.nanmask ++ star.badmask))

/-- The positive-outlier cadence indices of `MaskOutliers` (lines 58–61):
`where(f > med + pos_tol*MAD)`, each mapped back to the first cadence of
`star.time` holding the corresponding retained time. -/
def posOutliers (savgol : List ℚ → List ℚ) (star : Star) (pos_tol : ℚ) :
    List ℕ :=
  let t := npDelete star.time (star.nanmask ++ star.badmask)
  let f := smoothFlux savgol star
  let med := npMedian f
  let MAD := (14826 / 10000 : ℚ) * npMedian (f.map (fun x => |x - med|))
  (npWhere (fun x => decide (med + pos_tol * MAD < x)) f).map
    (fun i => argmaxAux (t.getD i 0) star.time 0)

/-- The negative-outlier cadence indices of `MaskOutliers` (lines 63–66);
the source recomputes the very same `MAD` expression before this step. -/
def negOutliers (savgol : List ℚ → List ℚ) (star : Star) (neg_tol : ℚ) :
    List ℕ :=
  let t := npDelete star.time (star.nanmask ++ star.badmask)
  let f := smoothFlux savgol star
  let med := npMedian f
  let MAD := (14826 / 10000 : ℚ) * npMedian (f.map (fun x => |x - med|))
  (npWhere (fun x => decide (x < med - neg_tol * MAD)) f).map
    (fun i => argmaxAux (t.getD i 0) star.time 0)

/-- Embeds `MaskOutliers` (lines 45–71): replaces `star.outmask` with the detected
negative-then-positive outliers and empties `star.transitmask`
(lines 70–71). -/
def MaskOutliers (savgol : List ℚ → List ℚ) (star : Star)
    (pos_tol neg_tol : ℚ) : Star :=
  { star with
      outmask := negOutliers savgol star neg_tol ++
        posOutliers savgol star pos_tol,
      transitmask := [] }

/-- C10: `MaskOutliers` replaces the outlier mask wholesale with the newly
detected negative and positive outlier indices (it does not append to the
previous mask: the new masks are independent of the prior
`outmask`/`transitmask`), resets the in-transit mask to empty, and leaves
every other field of the star unchanged. -/
theorem maskoutliers_frame (savgol : List ℚ → List ℚ) (star : Star)
    (pos_tol neg_tol : ℚ) :
    (MaskOutliers savgol star pos_tol neg_tol).outmask =
      negOutliers savgol star neg_tol ++ posOutliers savgol star pos_tol ∧
    (MaskOutliers savgol star pos_tol neg_tol).transitmask = [] ∧
    (∀ om tm, MaskOutliers savgol
        { star with outmask := om, transitmask := tm } pos_tol neg_tol =
      MaskOutliers savgol star pos_tol neg_tol) ∧
    (MaskOutliers savgol star pos_tol neg_tol).ID = star.ID ∧
    (MaskOutliers savgol star pos_tol neg_tol).time = star.time ∧
    (MaskOutliers savgol star pos_tol neg_tol).flux = star.flux ∧
    (MaskOutliers savgol star pos_tol neg_tol).fraw = star.fraw ∧
    (MaskOutliers savgol star pos_tol neg_tol).fraw_err = star.fraw_err ∧
    (MaskOutliers savgol star pos_tol neg_tol).nanmask = star.nanmask ∧
    (MaskOutliers savgol star pos_tol neg_tol).badmask = star.badmask ∧
    (MaskOutliers savgol star pos_tol neg_tol).breakpoints =
      star.breakpoints ∧
    (MaskOutliers savgol star pos_tol neg_tol).pld_order = star.pld_order ∧
    (MaskOutliers savgol star pos_tol neg_tol).ncols = star.ncols ∧
    (MaskOutliers savgol star pos_tol neg_tol).lam = star.lam ∧
    (MaskOutliers savgol star pos_tol neg_tol).Xmat = star.Xmat ∧
    (MaskOutliers savgol star pos_tol neg_tol).maskedChunk =
      star.maskedChunk := by
  refine ⟨rfl, rfl, ?_, rfl, rfl, rfl, rfl, rfl, rfl, rfl, rfl, rfl, rfl,
    rfl, rfl, rfl⟩
  intro om tm
  cases star
  rfl

/-! ## Chunk Preparer: covariance and target flux (`GetChunkData`,
lines 78–98) -/

/-- Matrices as index functions; only entries below the chunk size matter. -/
abbrev Mat : Type := ℕ → ℕ → ℚ

/-- Embeds `star.X(n, m)` (external interface): the PLD design matrix of order `n`
restricted to the chunk cadences `m`, rows indexed within the chunk. -/
def XM (star : Star) (n : ℕ) (m : List ℕ) : Mat :=
  fun i k => star.Xmat n (m.getD i 0) k

/-- Embeds `np.dot(XM, XM.T)`. -/
def outerXXt (X : Mat) (cols : ℕ) : Mat :=
  fun i j => ∑ k in Finset.range cols, X i k * X j k

def addMat (A B : Mat) : Mat := fun i j => A i j + B i j

def smulMat (c : ℚ) (A : Mat) : Mat := fun i j => c * A i j

def zeroMat : Mat := fun _ _ => 0

/-- The systematics accumulation loop of `GetChunkData` (lines 88–91):
`A = 0` then `A += lam[chunk][n] * XM·XMᵀ` for each order. -/
def pldCov (star : Star) (b : ℕ) (m : List ℕ) : Mat :=
  (List.range star.pld_order).foldl
    (fun A n => addMat A (smulMat (star.lam b n)
      (outerXXt (XM star n m) star.ncols))) zeroMat

/-- The covariance matrix `K` of `GetChunkData` (lines 82–92). -/
def chunkCov (getCov : List ℚ → List ℚ → Mat) (star : Star) (b : ℕ)
    (jointFit : Bool) : Mat :=
  let m := star.maskedChunk b
  let K := getCov (m.map (fun i => star.time.getD i 0))
    (m.map (fun i => star.fraw_err.getD i 0))
  if jointFit then addMat K (pldCov star b m) else K

/-- The target flux vector of `GetChunkData` (lines 93–95). -/
def chunkFlux (star : Star) (b : ℕ) (jointFit : Bool) : List ℚ :=
  let m := star.maskedChunk b
  if jointFit then m.map (fun i => star.fraw.getD i 0)
  else m.map (fun i => star.flux.getD i 0)

theorem pldCov_eq (star : Star) (b : ℕ) (m : List ℕ) :
    pldCov star b m = fun i j => ∑ n in Finset.range star.pld_order,
      star.lam b n * ∑ k in Finset.range star.ncols,
        star.Xmat n (m.getD i 0) k * star.Xmat n (m.getD j 0) k := by
  rw [pldCov]
  suffices h : ∀ N, (List.range N).foldl
      (fun A n => addMat A (smulMat (star.lam b n)
        (outerXXt (XM star n m) star.ncols))) zeroMat =
      fun i j => ∑ n in Finset.range N,
        star.lam b n * ∑ k in Finset.range star.ncols,
          star.Xmat n (m.getD i 0) k * star.Xmat n (m.getD j 0) k by
    exact h star.pld_order
  intro N
  induction N with
  | zero => funext i j; simp [zeroMat]
  | succ M ih =>
    rw [List.range_succ, List.foldl_append, ih]
    funext i j
    simp [addMat, smulMat, outerXXt, XM, Finset.sum_range_succ]

/-- C6: with `jointFit` the chunk covariance is the provider's noise
covariance plus, for each systematics order `n`, the outer product
`X_n X_nᵀ` of that order's basis matrix restricted to the chunk, scaled by
the chunk-and-order regularization weight `lam[chunk][n]`, and the target
vector is the raw (non-detrended) flux on the chunk; without `jointFit` the
covariance is the provider's matrix unmodified and the target is the
detrended flux. -/
theorem chunk_joint_fit_cov (getCov : List ℚ → List ℚ → Mat) (star : Star)
    (b : ℕ) (i j : ℕ) :
    chunkCov getCov star b true i j =
      getCov ((star.maskedChunk b).map (fun k => star.time.getD k 0))
        ((star.maskedChunk b).map (fun k => star.fraw_err.getD k 0)) i j +
      ∑ n in Finset.range star.pld_order, star.lam b n *
        ∑ k in Finset.range star.ncols,
          star.Xmat n ((star.maskedChunk b).getD i 0) k *
          star.Xmat n ((star.maskedChunk b).getD j 0) k ∧
    chunkFlux star b true =
      (star.maskedChunk b).map (fun k => star.fraw.getD k 0) ∧
    chunkCov getCov star b false =
      getCov ((star.maskedChunk b).map (fun k => star.time.getD k 0))
        ((star.maskedChunk b).map (fun k => star.fraw_err.getD k 0)) ∧
    chunkFlux star b false =
      (star.maskedChunk b).map (fun k => star.flux.getD k 0) := by
  refine ⟨?_, rfl, rfl, rfl⟩
  show addMat (getCov ((star.maskedChunk b).map (fun k => star.time.getD k 0))
      ((star.maskedChunk b).map (fun k => star.fraw_err.getD k 0)))
    (pldCov star b (star.maskedChunk b)) i j = _
  rw [addMat, pldCov_eq]

/-! ## `Search` (lines 119–207): pipeline, aggregation and caching -/

structure SearchResult where
  time : List ℚ
  ml_depth : List (Option ℚ)
  depth_variance : List (Option ℚ)
  delta_chisq : List (Option ℚ)

def emptyResult : SearchResult := ⟨[], [], [], []⟩

/-- Embeds the `np.append` of a chunk's outputs onto the running arrays
(lines 190–193). -/
def appendChunk (acc : SearchResult) (t : List ℚ)
    (out : List (Option ℚ × Option ℚ × Option ℚ)) : SearchResult :=
  ⟨acc.time ++ t,
   acc.ml_depth ++ out.map (fun x => x.1),
   acc.depth_variance ++ out.map (fun x => x.2.1),
   acc.delta_chisq ++ out.map (fun x => x.2.2)⟩

/-- The external collaborators of `Search`: the covariance provider, the
solver factory (`cho_factor` plus `cho_solve` for the chunk-size matrix),
the transit-shape provider and the `SavGol` smoother. -/
structure SearchEnv where
  getCov : List ℚ → List ℚ → Mat
  solveOf : Mat → ℕ → (List ℚ → List ℚ)
  shape : ℚ → ℚ → ℚ
  savgol : List ℚ → List ℚ

/-- Embeds `GetChunkData` (lines 73–117): the uniform grid, its gap indices, the
target flux and the solver against the factorized covariance of chunk `b`. -/
def GetChunkData (env : SearchEnv) (star : Star) (b : ℕ) (jointFit : Bool) :
    List ℚ × List ℕ × List ℚ × (List ℚ → List ℚ) :=
  let m := star.maskedChunk b
  let solve := env.solveOf (chunkCov env.getCov star b jointFit) m.length
  let g := buildGrid (m.map (fun i => star.time.getD i 0))
  (g.1, g.2.1, chunkFlux star b jointFit, solve)

/-- The compute branch of `Search` (lines 127–193): mask outliers, then scan
every chunk and concatenate the outputs in chunk order.  Returns the result
and the mutated star. -/
def computeSearch (env : SearchEnv) (star : Star) (jointFit : Bool)
    (pos_tol neg_tol : ℚ) : SearchResult × Star :=
  let star1 := MaskOutliers env.savgol star pos_tol neg_tol
  let res := (List.range star1.breakpoints.length).foldl (fun acc b =>
    let c := GetChunkData env star1 b jointFit
    appendChunk acc c.1 (scanChunk env.shape c.2.2.2 c.1 c.2.1 c.2.2.1))
    emptyResult
  (res, star1)

/-- Cache read/write failures (`np.load` / `np.savez` raising). -/
inductive CacheErr
  | readFail
  | writeFail

/-- The persisted-file state per `(target ID, joint-fit flag)` key: `none`
when `target%02d.search%d.npz` does not exist, `some (.error e)` when it
exists but `np.load` raises `e`, and `some (.ok r)` when it loads as `r`. -/
def CacheStore : Type := ℕ → Bool → Option (Except CacheErr SearchResult)

/-- Embeds `Search` (lines 119–207) with its file-system interactions explicit:
`store` is the persisted state keyed by `(ID, joint_fit)` and
`writeOutcome` the outcome of `np.savez`.  The source wraps no call in
try/except, so an exception on either path propagates out of `Search`,
modelled in the `Except` monad. -/
def SearchRun (env : SearchEnv) (star : Star) (jointFit clobber : Bool)
    (store : CacheStore) (writeOutcome : Except CacheErr Unit)
    (pos_tol neg_tol : ℚ) : Except CacheErr (SearchResult × Star) :=
  match store star.ID jointFit, clobber with
  | some cached, false => do
      let r ← cached
      pure (r, star)
  | _, _ => do
      let rs := computeSearch env star jointFit pos_tol neg_tol
      let _ ← writeOutcome
      pure rs

/-- C8: with a persisted result for the `(target ID, joint-fit)` key and no
forced recompute, `Search` skips all computation (the star is untouched — in
particular no outlier masking runs) and returns the persisted value
bit-identically.  With a forced recompute the full pipeline reruns on the
freshly re-masked star, and the prior outlier-masking state is reset: the
new masks are independent of the previous `outmask`/`transitmask`. -/
theorem search_cache_policy (env : SearchEnv) (star : Star)
    (jointFit : Bool) (store : CacheStore) (w : Except CacheErr Unit)
    (pos_tol neg_tol : ℚ) (r : SearchResult)
    (hhit : store star.ID jointFit = some (Except.ok r)) :
    SearchRun env star jointFit false store w pos_tol neg_tol =
      Except.ok (r, star) ∧
    (∀ store2, SearchRun env star jointFit true store2 (Except.ok ())
        pos_tol neg_tol =
      Except.ok (computeSearch env star jointFit pos_tol neg_tol)) ∧
    (computeSearch env star jointFit pos_tol neg_tol).2 =
      MaskOutliers env.savgol star pos_tol neg_tol ∧
    (∀ om tm, MaskOutliers env.savgol
        { star with outmask := om, transitmask := tm } pos_tol neg_tol =
      MaskOutliers env.savgol star pos_tol neg_tol) := by
  refine ⟨?_, ?_, rfl, ?_⟩
  · unfold SearchRun
    rw [hhit]
    rfl
  · intro store2
    unfold SearchRun
    cases store2 star.ID jointFit <;> rfl
  · intro om tm
    cases star
    rfl

def trivialEnv : SearchEnv :=
  ⟨fun _ _ => zeroMat, fun _ _ => id, fun _ _ => 1, id⟩

def star0 : Star :=
  { ID := 7, time := [0, 1], flux := [1, 1], fraw := [1, 1],
    fraw_err := [1, 1], nanmask := [], badmask := [], outmask := [3],
    transitmask := [2], breakpoints := [], pld_order := 0, ncols := 0,
    lam := fun _ _ => 0, Xmat := fun _ _ _ => 0, maskedChunk := fun _ => [] }

def result0 : SearchResult := ⟨[5], [some 1], [some 2], [some 3]⟩

/-- Witness for C8 at a concrete star and store holding `result0`. -/
theorem search_cache_policy_witness :
    SearchRun trivialEnv star0 false false
        (fun _ _ => some (Except.ok result0)) (Except.ok ()) (5/2) 50 =
      Except.ok (result0, star0) ∧
    (∀ store2, SearchRun trivialEnv star0 false true store2 (Except.ok ())
        (5/2) 50 =
      Except.ok (computeSearch trivialEnv star0 false (5/2) 50)) ∧
    (computeSearch trivialEnv star0 false (5/2) 50).2 =
      MaskOutliers trivialEnv.savgol star0 (5/2) 50 ∧
    (∀ om tm, MaskOutliers trivialEnv.savgol
        { star0 with outmask := om, transitmask := tm } (5/2) 50 =
      MaskOutliers trivialEnv.savgol star0 (5/2) 50) :=
  search_cache_policy trivialEnv star0 false
    (fun _ _ => some (Except.ok result0)) (Except.ok ()) (5/2) 50 result0 rfl

/-- C9 (amended): when the persisted result for the key exists but is
unreadable, `Search` aborts with the read error — there is no fallback to
recomputation; and when writing the freshly computed result fails, `Search`
aborts with the write error and the in-memory result is discarded rather
than returned. -/
theorem search_cache_error (env : SearchEnv) (star : Star) (jointFit : Bool)
    (store : CacheStore) (w : Except CacheErr Unit) (pos_tol neg_tol : ℚ)
    (e : CacheErr) (hbad : store star.ID jointFit = some (Except.error e)) :
    SearchRun env star jointFit false store w pos_tol neg_tol =
      Except.error e ∧
    (∀ e2 store2, SearchRun env star jointFit true store2 (Except.error e2)
        pos_tol neg_tol = Except.error e2) := by
  refine ⟨?_, ?_⟩
  · unfold SearchRun
    rw [hbad]
    rfl
  · intro e2 store2
    unfold SearchRun
    cases store2 star.ID jointFit <;> rfl

/-- Witness for C9 (amended) at a concrete star and unreadable store. -/
theorem search_cache_error_witness :
    SearchRun trivialEnv star0 false false
        (fun _ _ => some (Except.error CacheErr.readFail)) (Except.ok ())
        (5/2) 50 = Except.error CacheErr.readFail ∧
    (∀ e2 store2, SearchRun trivialEnv star0 false true store2
        (Except.error e2) (5/2) 50 = Except.error e2) :=
  search_cache_error trivialEnv star0 false
    (fun _ _ => some (Except.error CacheErr.readFail)) (Except.ok ())
    (5/2) 50 CacheErr.readFail rfl

/-- Counterexample for C9 as stated: a persisted-but-unreadable result does
not trigger recomputation — `Search` returns the read error, not a
recomputed `ok` value; and a failed write aborts `Search` even though the
in-memory result had been computed successfully. -/
theorem search_cache_error_cex :
    SearchRun trivialEnv star0 false false
        (fun _ _ => some (Except.error CacheErr.readFail)) (Except.ok ())
        (5/2) 50 = Except.error CacheErr.readFail ∧
    SearchRun trivialEnv star0 false true (fun _ _ => none)
        (Except.error CacheErr.writeFail) (5/2) 50 =
      Except.error CacheErr.writeFail ∧
    (∀ res : SearchResult × Star,
      (Except.error CacheErr.readFail :
        Except CacheErr (SearchResult × Star)) ≠ Except.ok res) := by
  refine ⟨rfl, rfl, ?_⟩
  intro res h
  exact Except.noConfusion h

end Everest
